import Mathlib

/-!
Verification of the two utility scripts of this repository against their
specification: the secret encoder (encode-secrets.py) and the test-data
uploader (scripts/create-test-data.py).  The scripts are shallowly embedded:
file contents are lists of lines, the random source and the object-storage
call are explicit parameters, byte strings are lists of naturals below 256,
and real-valued samples are rationals.
-/

namespace EncodeSecrets

/-- Whitespace characters removed by the strip() applied to each line. -/
def isWS (c : Char) : Bool :=
  c = ' ' || c = '\t' || c = '\n' || c = '\r' || Char.ofNat 11 = c || Char.ofNat 12 = c

/-- Model of str.strip(): remove leading and trailing whitespace. -/
def pyStrip (l : List Char) : List Char :=
  ((l.dropWhile isWS).reverse.dropWhile isWS).reverse

/-- Model of line.split(Char.ofNat 61, 1): split a line at its first
equals sign, returning none when the line has no equals sign. -/
def splitEq : List Char → Option (List Char × List Char)
  | [] => none
  | c :: rest =>
    if c = '=' then some ([], rest)
    else (splitEq rest).map (fun p => (c :: p.1, p.2))

/-- Parsing of one line of the .env file: strip, skip blank lines and
comment lines, split on the first equals sign. -/
def parseLine (line : String) : Option (String × String) :=
  let l := pyStrip line.data
  if l.isEmpty then none
  else if l.head? = some '#' then none
  else
    match splitEq l with
    | some kv => some (String.mk kv.1, String.mk kv.2)
    | none => none

/-- Model of dict assignment env_vars[key] = value: a later binding of the
same key overwrites the earlier one, in place. -/
def upsert (m : List (String × String)) (k v : String) : List (String × String) :=
  if m.any (fun p => p.1 == k) then m.map (fun p => if p.1 == k then (k, v) else p)
  else m ++ [(k, v)]

/-- The dictionary built by load_env_file from the lines of the .env file. -/
def loadEnv (lines : List String) : List (String × String) :=
  lines.foldl
    (fun m line =>
      match parseLine line with
      | some kv => upsert m kv.1 kv.2
      | none => m) []

/-- Model of load_env_file: none when the .env file is missing, otherwise
the parsed key-value dictionary. -/
def load_env_file (file : Option (List String)) : Option (List (String × String)) :=
  match file with
  | none => none
  | some lines => some (loadEnv lines)

/-- The seven target keys of the encoder (the secrets_to_encode list). -/
def targets : List String :=
  ["AWS_ACCESS_KEY_ID", "AWS_SECRET_ACCESS_KEY", "AWS_REGION",
   "CLICKHOUSE_USER", "CLICKHOUSE_PASSWORD", "ES_USER", "ES_PASSWORD"]

/-- The 64 characters of the standard base64 alphabet. -/
def b64chars : List Char :=
  "ABCDEFGHIJKLMNOPQRSTUVWXYZabcdefghijklmnopqrstuvwxyz0123456789+/".data

/-- Character of one 6-bit group. -/
def sextetChar (n : Nat) : Char := b64chars.getD n 'A'

/-- Index of a character in the base64 alphabet, none for pad or garbage. -/
def sextetVal (c : Char) : Option Nat := b64chars.findIdx? (fun d => d = c)

/-- Standard base64 encoding of a byte list (model of base64.b64encode). -/
def b64encodeBytes : List Nat → List Char
  | [] => []
  | [a] => [sextetChar (a / 4), sextetChar (a % 4 * 16), '=', '=']
  | [a, b] => [sextetChar (a / 4), sextetChar (a % 4 * 16 + b / 16), sextetChar (b % 16 * 4), '=']
  | a :: b :: c :: rest =>
    sextetChar (a / 4) :: sextetChar (a % 4 * 16 + b / 16) ::
      sextetChar (b % 16 * 4 + c / 64) :: sextetChar (c % 64) :: b64encodeBytes rest

/-- Standard base64 decoding of a character list (model of
base64.b64decode), returning none on malformed input. -/
def b64decodeBytes : List Char → Option (List Nat)
  | [] => some []
  | c1 :: c2 :: c3 :: c4 :: rest =>
    match sextetVal c1, sextetVal c2 with
    | some s1, some s2 =>
      if c3 = '=' then
        if c4 = '=' ∧ rest = [] then some [s1 * 4 + s2 / 16] else none
      else
        match sextetVal c3 with
        | some s3 =>
          if c4 = '=' then
            if rest = [] then some [s1 * 4 + s2 / 16, s2 % 16 * 16 + s3 / 4] else none
          else
            match sextetVal c4 with
            | some s4 =>
              (b64decodeBytes rest).map
                (fun bs => (s1 * 4 + s2 / 16) :: (s2 % 16 * 16 + s3 / 4) :: (s3 % 4 * 64 + s4) :: bs)
            | none => none
        | none => none
    | _, _ => none
  | _ => none

/-- UTF-8 encoding of one unicode code point. -/
def utf8EncodeNat (n : Nat) : List Nat :=
  if n < 128 then [n]
  else if n < 2048 then [192 + n / 64, 128 + n % 64]
  else if n < 65536 then [224 + n / 4096, 128 + n / 64 % 64, 128 + n % 64]
  else [240 + n / 262144, 128 + n / 4096 % 64, 128 + n / 64 % 64, 128 + n % 64]

/-- UTF-8 encoding of a character list (model of str.encode of Python). -/
def utf8Encode (cs : List Char) : List Nat :=
  cs.flatMap (fun c => utf8EncodeNat c.toNat)

/-- Decoding of a single UTF-8 sequence: from the lead byte and the bytes
that follow it, the code point together with the number of continuation
bytes consumed, or none when the sequence is malformed. -/
def utf8StepLen (b : Nat) (rest : List Nat) : Option (Nat × Nat) :=
  if b < 128 then some (b, 0)
  else if b < 194 then none
  else if b < 224 then
    match rest with
    | b2 :: _ =>
      if 128 ≤ b2 ∧ b2 < 192 then some ((b - 192) * 64 + (b2 - 128), 1) else none
    | [] => none
  else if b < 240 then
    match rest with
    | b2 :: b3 :: _ =>
      if (128 ≤ b2 ∧ b2 < 192) ∧ (128 ≤ b3 ∧ b3 < 192) then
        let n := (b - 224) * 4096 + (b2 - 128) * 64 + (b3 - 128)
        if 2048 ≤ n ∧ ¬(55296 ≤ n ∧ n < 57344) then some (n, 2) else none
      else none
    | _ => none
  else if b < 245 then
    match rest with
    | b2 :: b3 :: b4 :: _ =>
      if (128 ≤ b2 ∧ b2 < 192) ∧ (128 ≤ b3 ∧ b3 < 192) ∧ (128 ≤ b4 ∧ b4 < 192) then
        let n := (b - 240) * 262144 + (b2 - 128) * 4096 + (b3 - 128) * 64 + (b4 - 128)
        if 65536 ≤ n ∧ n < 1114112 then some (n, 3) else none
      else none
    | _ => none
  else none

/-- UTF-8 decoding of a byte list to code points (model of bytes.decode),
returning none on malformed input. -/
def utf8DecodeNats (l : List Nat) : Option (List Nat) :=
  match l with
  | [] => some []
  | b :: rest =>
    match utf8StepLen b rest with
    | some p => (utf8DecodeNats (rest.drop p.2)).map (fun ns => p.1 :: ns)
    | none => none
termination_by l.length
decreasing_by simp [List.length_drop]; omega

/-- Model of encode_secret: UTF-8 encode the value, then base64 encode. -/
def encode_secret (secret : String) : String :=
  String.mk (b64encodeBytes (utf8Encode secret.data))

/-- Reference base64-plus-UTF-8 decoder used to state the round-trip
property of the specification. -/
def decodeSecret (s : String) : Option String :=
  (b64decodeBytes s.data).bind
    (fun bs => (utf8DecodeNats bs).map (fun ns => String.mk (ns.map Char.ofNat)))

/-- The single-quote character that the encoder wraps appended values in. -/
def sq : String := String.mk [Char.ofNat 39]

/-- The line appended to the .env file for one encoded secret. -/
def appendedLine (k e : String) : String := k ++ "_B64=" ++ sq ++ e ++ sq

/-- The per-key loop of the main function of the encoder: for each key of
ks in order, either encode and append (key present) or report that the key
was not found.  Returns (appended file lines, printed lines). -/
def processKeys (m : List (String × String)) : List String → List String × List String
  | [] => ([], [])
  | k :: ks =>
    let rest := processKeys m ks
    match m.lookup k with
    | some v =>
      (appendedLine k (encode_secret v) :: rest.1,
       (k ++ "_B64=" ++ encode_secret v) :: rest.2)
    | none => (rest.1, (k ++ " not found in .env file") :: rest.2)

/-- Model of the main function of encode-secrets.py.  The argument is the
state of the .env file (none when missing); the result is the final state
of the .env file together with the printed lines. -/
def encoderMain (file : Option (List String)) : Option (List String) × List String :=
  match file with
  | none => (none, ["File .env not found!"])
  | some lines =>
    if loadEnv lines = [] then (some lines, [])
    else
      (some (lines ++ (processKeys (loadEnv lines) targets).1),
       (processKeys (loadEnv lines) targets).2)

/-- Closed form of the lines the encoder appends for a parsed dictionary. -/
def appendedFor (m : List (String × String)) : List String :=
  targets.filterMap (fun k => (m.lookup k).map (fun v => appendedLine k (encode_secret v)))

/-- Closed form of the per-key lines the encoder prints for a parsed
dictionary. -/
def reportsFor (m : List (String × String)) : List String :=
  targets.map
    (fun k =>
      match m.lookup k with
      | some v => k ++ "_B64=" ++ encode_secret v
      | none => k ++ " not found in .env file")

end EncodeSecrets

namespace CreateTestData

/-- One batch of uniform random samples, as drawn for one (timestamp,
device) pair: base temperature, humidity and pressure samples, and the two
daytime adjustment samples. -/
structure Draws where
  temp : ℚ
  hum : ℚ
  press : ℚ
  tAdj : ℚ
  hAdj : ℚ

/-- One generated sensor reading.  The timestamp is kept as seconds on a
linear clock; the script renders it in ISO-8601 form, which is injective,
so nothing below depends on the rendering. -/
structure Record where
  timestamp : ℤ
  device_id : String
  metric_name : String
  metric_value : ℚ
  location : String
  zone : String
  deriving DecidableEq, Inhabited

/-- Model of round(x, 2): round to a 2-decimal rational. -/
def round2 (x : ℚ) : ℚ := (Rat.floor (x * 100 + 1 / 2) : ℚ) / 100

/-- A rational is a 2-decimal value when it is an integer number of
hundredths; this is what rounded to 2 decimals means observably. -/
def isRound2 (v : ℚ) : Prop := ∃ z : ℤ, v = z / 100

/-- Hour of the day of a timestamp in seconds. -/
def hourOf (t : ℤ) : ℤ := Int.emod (Int.fdiv t 3600) 24

/-- The daytime test of the generator: 6 <= timestamp.hour <= 18. -/
def daytime (t : ℤ) : Bool := decide (6 ≤ hourOf t ∧ hourOf t ≤ 18)

/-- Static device-to-(location, zone) mapping of the generator. -/
def zoneOf (d : ℕ) : String × String :=
  if d = 1 then ("zone_a", "production")
  else if d = 2 then ("zone_b", "testing")
  else if d = 3 then ("zone_c", "development")
  else if d = 4 then ("zone_d", "storage")
  else ("zone_e", "monitoring")

/-- Zero-padding of a device number to at least three digits. -/
def pad3 (d : ℕ) : String :=
  if d < 10 then "00" ++ toString d
  else if d < 100 then "0" ++ toString d
  else toString d

/-- Device identifier string device_NNN. -/
def deviceIdOf (d : ℕ) : String := "device_" ++ pad3 d

/-- The three records generated for one (timestamp, device) pair: base
samples rounded to 2 decimals, daytime adjustment added unrounded,
temperature floored at 0, humidity clamped to [0, 100], pressure taken
as is. -/
def deviceRecords (dr : Draws) (t : ℤ) (d : ℕ) : List Record :=
  let temperature := round2 dr.temp
  let humidity := round2 dr.hum
  let pressure := round2 dr.press
  let temperature2 := if daytime t then temperature + dr.tAdj else temperature
  let humidity2 := if daytime t then humidity - dr.hAdj else humidity
  let lz := zoneOf d
  [{ timestamp := t, device_id := deviceIdOf d, metric_name := "temperature",
     metric_value := max 0 temperature2, location := lz.1, zone := lz.2 },
   { timestamp := t, device_id := deviceIdOf d, metric_name := "humidity",
     metric_value := max 0 (min 100 humidity2), location := lz.1, zone := lz.2 },
   { timestamp := t, device_id := deviceIdOf d, metric_name := "pressure",
     metric_value := pressure, location := lz.1, zone := lz.2 }]

/-- Model of pd.date_range(start, end, freq=1min): the 1-minute grid
anchored at the start, keeping the points that do not pass the end. -/
def dateRange (s e : ℤ) : List ℤ :=
  if s ≤ e then (List.range ((e - s).toNat / 60 + 1)).map (fun k : ℕ => s + 60 * (k : ℤ))
  else []

/-- Device numbers 1..n, the range(1, num_devices + 1) of the script. -/
def deviceRange (n : ℕ) : List ℕ := List.range' 1 n

/-- Model of generate_sample_data: one record per (minute, device, metric)
triple.  The random source is passed explicitly, one batch of samples per
(timestamp, device) pair. -/
def generate_sample_data (s e : ℤ) (n : ℕ) (draws : ℤ → ℕ → Draws) : List Record :=
  (dateRange s e).flatMap
    (fun t => (deviceRange n).flatMap (fun d => deviceRecords (draws t d) t d))

/-- Whether an Except value is a success. -/
def exceptOk {ε α : Type} : Except ε α → Bool
  | .ok _ => true
  | .error _ => false

/-- Model of upload_to_s3: the whole body runs inside try/except, so the
storage call is an explicit fallible parameter; any raised exception is
caught and turned into the return value false, success returns true. -/
def upload_to_s3 (put : String → String → List Record → Except String Unit)
    (df : List Record) (bucket key : String) : Bool :=
  match put bucket key df with
  | .ok _ => true
  | .error _ => false

/-- Substring test on character lists, the Python in operator on str. -/
def listContains (l pat : List Char) : Bool :=
  (List.range (l.length + 1)).any (fun i => pat.isPrefixOf (l.drop i))

/-- Substring test on strings. -/
def strContains (s pat : String) : Bool := listContains s.data pat.data

/-- Model of s.endswith(to the slash). -/
def endsSlash (s : String) : Bool := s.data.getLast? = some '/'

/-- Prefix normalization of the main routine: append a slash when the
configured S3 prefix does not end with one. -/
def normPfx (p : String) : String := if endsSlash p then p else p ++ "/"

/-- The three object keys built by the main routine from the normalized
prefix. -/
def testKeys (pfx : String) : List String :=
  [pfx ++ "sample-metrics.csv", pfx ++ "daily-metrics-2024-01-15.csv",
   pfx ++ "hourly-metrics-2024-01-15.csv"]

/-- Model of the upload loop of the main routine: the full dataset (7-day
range ending at endT, 5 devices) is generated up front; then for each test
key, the key is dispatched on the substrings daily and hourly to decide
which dataset to generate and upload.  Returns, per key, the uploaded
dataset and the success flag of the upload. -/
def mainUploads (put : String → String → List Record → Except String Unit)
    (pfx0 bucket : String) (endT : ℤ) (dF dD dH : ℤ → ℕ → Draws) :
    List (String × List Record × Bool) :=
  let pfx := normPfx pfx0
  let df := generate_sample_data (endT - 604800) endT 5 dF
  (testKeys pfx).map
    (fun key =>
      let d :=
        if strContains key "daily" then generate_sample_data (endT - 86400) endT 3 dD
        else if strContains key "hourly" then generate_sample_data (endT - 3600) endT 2 dH
        else df
      (key, d, upload_to_s3 put d bucket key))

/-- A fixed batch of samples used for concrete instantiations: temperature
25, humidity 50, pressure 1015, daytime adjustments 469/200 and 10. -/
def cDraws : ℤ → ℕ → Draws := fun _ _ => ⟨25, 50, 1015, 469 / 200, 10⟩

/-- A storage stub that always succeeds. -/
def okPut : String → String → List Record → Except String Unit := fun _ _ _ => .ok ()

end CreateTestData

namespace EncodeSecrets

lemma sextet_val_char : ∀ n < 64, sextetVal (sextetChar n) = some n := by decide

lemma sextetChar_ne_pad : ∀ n < 64, sextetChar n ≠ '=' := by decide

/-- Decoding is a left inverse of encoding on byte lists. -/
theorem b64_roundtrip : ∀ bs : List Nat, (∀ b ∈ bs, b < 256) →
    b64decodeBytes (b64encodeBytes bs) = some bs := by
  intro bs
  induction bs using b64encodeBytes.induct with
  | case1 => intro _; rfl
  | case2 a =>
    intro h
    have ha : a < 256 := h a (by simp)
    simp only [b64encodeBytes, b64decodeBytes,
      sextet_val_char (a / 4) (by omega), sextet_val_char (a % 4 * 16) (by omega),
      reduceIte, if_pos rfl, and_self, if_true,
      Option.some.injEq, List.cons.injEq, and_true]
    omega
  | case3 a b =>
    intro h
    have ha : a < 256 := h a (by simp)
    have hb : b < 256 := h b (by simp)
    simp only [b64encodeBytes, b64decodeBytes,
      sextet_val_char (a / 4) (by omega),
      sextet_val_char (a % 4 * 16 + b / 16) (by omega),
      if_neg (sextetChar_ne_pad (b % 16 * 4) (by omega)),
      sextet_val_char (b % 16 * 4) (by omega),
      reduceIte, if_pos rfl, and_self, if_true,
      Option.some.injEq, List.cons.injEq, and_true]
    omega
  | case4 a b c rest ih =>
    intro h
    have ha : a < 256 := h a (by simp)
    have hb : b < 256 := h b (by simp)
    have hc : c < 256 := h c (by simp)
    have hrest : ∀ x ∈ rest, x < 256 := fun x hx => h x (by simp [hx])
    simp only [b64encodeBytes, b64decodeBytes,
      sextet_val_char (a / 4) (by omega),
      sextet_val_char (a % 4 * 16 + b / 16) (by omega),
      if_neg (sextetChar_ne_pad (b % 16 * 4 + c / 64) (by omega)),
      sextet_val_char (b % 16 * 4 + c / 64) (by omega),
      if_neg (sextetChar_ne_pad (c % 64) (by omega)),
      sextet_val_char (c % 64) (by omega),
      ih hrest, Option.map_some', Option.some.injEq, List.cons.injEq, and_true]
    omega

lemma utf8DecodeNats_cons (b : ℕ) (rest : List ℕ) :
    utf8DecodeNats (b :: rest) =
      match utf8StepLen b rest with
      | some p => (utf8DecodeNats (rest.drop p.2)).map (fun ns => p.1 :: ns)
      | none => none := by
  rw [utf8DecodeNats]

lemma utf8StepLen_ascii (b : ℕ) (rest : List ℕ) (h : b < 128) :
    utf8StepLen b rest = some (b, 0) := by
  unfold utf8StepLen
  rw [if_pos h]

lemma utf8StepLen_two (n : ℕ) (rest : List ℕ) (h1 : 128 ≤ n) (h2 : n < 2048) :
    utf8StepLen (192 + n / 64) ((128 + n % 64) :: rest) = some (n, 1) := by
  unfold utf8StepLen
  rw [if_neg (by omega : ¬(192 + n / 64 < 128)), if_neg (by omega : ¬(192 + n / 64 < 194)),
    if_pos (by omega : 192 + n / 64 < 224)]
  dsimp only []
  rw [if_pos (by omega : 128 ≤ 128 + n % 64 ∧ 128 + n % 64 < 192)]
  simp only [Option.some.injEq, Prod.mk.injEq, and_true]
  omega

lemma utf8StepLen_three (n : ℕ) (rest : List ℕ) (h1 : 2048 ≤ n) (h2 : n < 65536)
    (h3 : ¬(55296 ≤ n ∧ n < 57344)) :
    utf8StepLen (224 + n / 4096) ((128 + n / 64 % 64) :: (128 + n % 64) :: rest) =
      some (n, 2) := by
  unfold utf8StepLen
  rw [if_neg (by omega : ¬(224 + n / 4096 < 128)), if_neg (by omega : ¬(224 + n / 4096 < 194)),
    if_neg (by omega : ¬(224 + n / 4096 < 224)), if_pos (by omega : 224 + n / 4096 < 240)]
  dsimp only []
  rw [if_pos (by omega : (128 ≤ 128 + n / 64 % 64 ∧ 128 + n / 64 % 64 < 192) ∧
    (128 ≤ 128 + n % 64 ∧ 128 + n % 64 < 192))]
  have e1 : (224 + n / 4096 - 224) * 4096 + (128 + n / 64 % 64 - 128) * 64 +
      (128 + n % 64 - 128) = n := by omega
  rw [e1, if_pos (by omega : 2048 ≤ n ∧ ¬(55296 ≤ n ∧ n < 57344))]

lemma utf8StepLen_four (n : ℕ) (rest : List ℕ) (h1 : 65536 ≤ n) (h2 : n < 1114112) :
    utf8StepLen (240 + n / 262144)
      ((128 + n / 4096 % 64) :: (128 + n / 64 % 64) :: (128 + n % 64) :: rest) =
      some (n, 3) := by
  unfold utf8StepLen
  rw [if_neg (by omega : ¬(240 + n / 262144 < 128)),
    if_neg (by omega : ¬(240 + n / 262144 < 194)),
    if_neg (by omega : ¬(240 + n / 262144 < 224)),
    if_neg (by omega : ¬(240 + n / 262144 < 240)),
    if_pos (by omega : 240 + n / 262144 < 245)]
  dsimp only []
  rw [if_pos (by omega : (128 ≤ 128 + n / 4096 % 64 ∧ 128 + n / 4096 % 64 < 192) ∧
    (128 ≤ 128 + n / 64 % 64 ∧ 128 + n / 64 % 64 < 192) ∧
    (128 ≤ 128 + n % 64 ∧ 128 + n % 64 < 192))]
  have e1 : (240 + n / 262144 - 240) * 262144 + (128 + n / 4096 % 64 - 128) * 4096 +
      (128 + n / 64 % 64 - 128) * 64 + (128 + n % 64 - 128) = n := by omega
  rw [e1, if_pos (by omega : 65536 ≤ n ∧ n < 1114112)]

lemma utf8DecodeNats_encode_append (n : Nat) (hv : n.isValidChar) (rest : List Nat) :
    utf8DecodeNats (utf8EncodeNat n ++ rest) = (utf8DecodeNats rest).map (fun ns => n :: ns) := by
  have hv' : n < 55296 ∨ (57343 < n ∧ n < 1114112) := hv
  by_cases h1 : n < 128
  · rw [utf8EncodeNat, if_pos h1, List.cons_append, List.nil_append,
      utf8DecodeNats_cons, utf8StepLen_ascii n rest h1]
    dsimp only []
    rw [List.drop_zero]
  · by_cases h2 : n < 2048
    · rw [utf8EncodeNat, if_neg h1, if_pos h2, List.cons_append, List.cons_append,
        List.nil_append, utf8DecodeNats_cons, utf8StepLen_two n rest (by omega) h2]
      dsimp only [List.drop_succ_cons, List.drop_zero]
    · by_cases h3 : n < 65536
      · rw [utf8EncodeNat, if_neg h1, if_neg h2, if_pos h3, List.cons_append,
          List.cons_append, List.cons_append, List.nil_append, utf8DecodeNats_cons,
          utf8StepLen_three n rest (by omega) h3 (by omega)]
        dsimp only [List.drop_succ_cons, List.drop_zero]
      · rw [utf8EncodeNat, if_neg h1, if_neg h2, if_neg h3, List.cons_append,
          List.cons_append, List.cons_append, List.cons_append, List.nil_append,
          utf8DecodeNats_cons, utf8StepLen_four n rest (by omega) (by omega)]
        dsimp only [List.drop_succ_cons, List.drop_zero]

/-- UTF-8 decoding is a left inverse of UTF-8 encoding. -/
theorem utf8_roundtrip (cs : List Char) :
    utf8DecodeNats (utf8Encode cs) = some (cs.map Char.toNat) := by
  induction cs with
  | nil =>
    rw [utf8Encode, List.flatMap_nil, List.map_nil, utf8DecodeNats]
  | cons c cs ih =>
    have hv : Nat.isValidChar c.toNat := c.valid
    rw [utf8Encode, List.flatMap_cons]
    rw [utf8Encode] at ih
    rw [utf8DecodeNats_encode_append c.toNat hv, ih]
    simp

lemma utf8Encode_lt_256 (cs : List Char) : ∀ b ∈ utf8Encode cs, b < 256 := by
  intro b hb
  rw [utf8Encode] at hb
  simp only [List.mem_flatMap] at hb
  obtain ⟨c, _, hb⟩ := hb
  have hv : c.toNat < 55296 ∨ (57343 < c.toNat ∧ c.toNat < 1114112) := c.valid
  by_cases h1 : c.toNat < 128
  · simp only [utf8EncodeNat, if_pos h1, List.mem_singleton] at hb; omega
  · by_cases h2 : c.toNat < 2048
    · simp only [utf8EncodeNat, if_neg h1, if_pos h2, List.mem_cons,
        List.not_mem_nil, or_false] at hb
      rcases hb with hb | hb <;> omega
    · by_cases h3 : c.toNat < 65536
      · simp only [utf8EncodeNat, if_neg h1, if_neg h2, if_pos h3, List.mem_cons,
          List.not_mem_nil, or_false] at hb
        rcases hb with hb | hb | hb <;> omega
      · simp only [utf8EncodeNat, if_neg h1, if_neg h2, if_neg h3, List.mem_cons,
          List.not_mem_nil, or_false] at hb
        rcases hb with hb | hb | hb | hb <;> omega

/-- Decoding an encoded secret gives back the secret, for every string. -/
theorem decode_encode_secret (v : String) : decodeSecret (encode_secret v) = some v := by
  rw [encode_secret, decodeSecret]
  have hd : (String.mk (b64encodeBytes (utf8Encode v.data))).data
      = b64encodeBytes (utf8Encode v.data) := rfl
  rw [hd, b64_roundtrip _ (utf8Encode_lt_256 v.data)]
  simp only [Option.some_bind, utf8_roundtrip v.data, Option.map_some']
  simp only [List.map_map]
  have hcomp : (Char.ofNat ∘ Char.toNat) = id := by
    funext c
    simp [Function.comp, Char.ofNat_toNat]
  rw [hcomp, List.map_id]

end EncodeSecrets

namespace CreateTestData

lemma length_flatMap_const {α β : Type} (l : List α) (f : α → List β) (k : ℕ)
    (h : ∀ a ∈ l, (f a).length = k) : (l.flatMap f).length = l.length * k := by
  induction l with
  | nil => simp
  | cons a l ih =>
    rw [List.flatMap_cons, List.length_append, h a (by simp),
      ih (fun x hx => h x (by simp [hx])), List.length_cons]
    ring

lemma deviceRecords_length (dr : Draws) (t : ℤ) (d : ℕ) :
    (deviceRecords dr t d).length = 3 := rfl

lemma dateRange_length (s e : ℤ) (h : s ≤ e) :
    (dateRange s e).length = (e - s).toNat / 60 + 1 := by
  rw [dateRange, if_pos h]
  simp

lemma generate_length (s e : ℤ) (n : ℕ) (draws : ℤ → ℕ → Draws) (h : s ≤ e) :
    (generate_sample_data s e n draws).length = ((e - s).toNat / 60 + 1) * (n * 3) := by
  rw [generate_sample_data,
    length_flatMap_const _ _ (n * 3)
      (fun t _ => by
        rw [length_flatMap_const _ _ 3 (fun d _ => deviceRecords_length _ _ _),
          deviceRange, List.length_range']),
    dateRange_length s e h]

lemma isRound2_round2 (x : ℚ) : isRound2 (round2 x) := ⟨Rat.floor (x * 100 + 1 / 2), rfl⟩

lemma isRound2_max {a b : ℚ} (ha : isRound2 a) (hb : isRound2 b) : isRound2 (max a b) := by
  rcases le_total a b with h | h
  · rwa [max_eq_right h]
  · rwa [max_eq_left h]

lemma isRound2_min {a b : ℚ} (ha : isRound2 a) (hb : isRound2 b) : isRound2 (min a b) := by
  rcases le_total a b with h | h
  · rwa [min_eq_left h]
  · rwa [min_eq_right h]

lemma isRound2_zero : isRound2 0 := ⟨0, by norm_num⟩

lemma isRound2_hundred : isRound2 100 := ⟨10000, by norm_num⟩

lemma mem_generate {draws : ℤ → ℕ → Draws} {s e : ℤ} {n : ℕ} {r : Record}
    (hr : r ∈ generate_sample_data s e n draws) :
    ∃ t d, r ∈ deviceRecords (draws t d) t d := by
  simp only [generate_sample_data, List.mem_flatMap] at hr
  obtain ⟨t, _, d, _, hr⟩ := hr
  exact ⟨t, d, hr⟩

lemma mem_deviceRecords {dr : Draws} {t : ℤ} {d : ℕ} {r : Record}
    (hr : r ∈ deviceRecords dr t d) :
    r = { timestamp := t, device_id := deviceIdOf d, metric_name := "temperature",
          metric_value := max 0 (if daytime t then round2 dr.temp + dr.tAdj else round2 dr.temp),
          location := (zoneOf d).1, zone := (zoneOf d).2 } ∨
    r = { timestamp := t, device_id := deviceIdOf d, metric_name := "humidity",
          metric_value :=
            max 0 (min 100 (if daytime t then round2 dr.hum - dr.hAdj else round2 dr.hum)),
          location := (zoneOf d).1, zone := (zoneOf d).2 } ∨
    r = { timestamp := t, device_id := deviceIdOf d, metric_name := "pressure",
          metric_value := round2 dr.press,
          location := (zoneOf d).1, zone := (zoneOf d).2 } := by
  simpa only [deviceRecords, List.mem_cons, List.not_mem_nil, or_false] using hr

end CreateTestData

namespace CreateTestData

lemma round2_nonneg (x : ℚ) (hx : 0 ≤ x) : 0 ≤ round2 x := by
  rw [round2]
  apply div_nonneg _ (by norm_num)
  have h : (0 : ℤ) ≤ Rat.floor (x * 100 + 1 / 2) := by
    rw [Rat.le_floor]
    push_cast
    linarith
  exact_mod_cast h

lemma not_isRound2_offset (a : ℚ) (ha : isRound2 a) : ¬ isRound2 (a + 469 / 200) := by
  rintro ⟨z, hz⟩
  obtain ⟨w, hw⟩ := ha
  rw [hw] at hz
  have h3 : (46900 : ℚ) = (z - w) * 200 := by
    field_simp at hz
    linarith
  have h4 : (46900 : ℤ) = (z - w) * 200 := by exact_mod_cast h3
  omega

/-- Claim C2 is false on the code: at a timestamp whose hour is 6 (daytime),
the generated temperature value is the rounded base sample plus the
unrounded daytime adjustment, so with adjustment sample 469/200 it is not a
2-decimal value.  This refutes the claim that every metric_value is rounded
to 2 decimals including daytime timestamps. -/
theorem c2_counterexample :
    ¬ ∀ r ∈ generate_sample_data 21600 21600 1 cDraws, isRound2 r.metric_value := by
  intro h
  have h1 : isRound2 (max 0 (round2 25 + 469 / 200)) :=
    h { timestamp := 21600, device_id := "device_001", metric_name := "temperature",
        metric_value := max 0 (round2 25 + 469 / 200), location := "zone_a",
        zone := "production" }
      (List.mem_cons_self _ _)
  have h0 : (0 : ℚ) ≤ round2 25 + 469 / 200 := by
    have := round2_nonneg 25 (by norm_num)
    linarith
  rw [max_eq_right h0] at h1
  exact not_isRound2_offset (round2 25) (isRound2_round2 25) h1

/-- Claim C2, amended: every metric_value of a record whose timestamp is
outside the daytime hours (hour 6 to 18) is rounded to 2 decimals, and
every pressure metric_value is rounded to 2 decimals regardless of the
hour; daytime temperature and humidity values get an unrounded adjustment
added after rounding and need not be 2-decimal values. -/
theorem rounded_metric_values (draws : ℤ → ℕ → Draws) (s e : ℤ) (n : ℕ) (r : Record)
    (hr : r ∈ generate_sample_data s e n draws) :
    (daytime r.timestamp = false → isRound2 r.metric_value) ∧
    (r.metric_name = "pressure" → isRound2 r.metric_value) := by
  obtain ⟨t, d, hmem⟩ := mem_generate hr
  rcases mem_deviceRecords hmem with h | h | h <;> subst h <;> dsimp only
  · constructor
    · intro hd
      rw [hd]
      simp only [Bool.false_eq_true, if_false]
      exact isRound2_max isRound2_zero (isRound2_round2 _)
    · intro hn
      exact absurd hn (by decide)
  · constructor
    · intro hd
      rw [hd]
      simp only [Bool.false_eq_true, if_false]
      exact isRound2_max isRound2_zero (isRound2_min isRound2_hundred (isRound2_round2 _))
    · intro hn
      exact absurd hn (by decide)
  · exact ⟨fun _ => isRound2_round2 _, fun _ => isRound2_round2 _⟩

theorem rounded_metric_values_witness :
    isRound2 (Record.metric_value
      { timestamp := 0, device_id := "device_001", metric_name := "pressure",
        metric_value := round2 1015, location := "zone_a", zone := "production" }) := by
  exact (rounded_metric_values cDraws 0 0 1 _
    (List.mem_cons_of_mem _ (List.mem_cons_of_mem _ (List.mem_cons_self _ _)))).2 rfl

/-- Claim C4: for start at most end and a positive device count, the
number of records returned by generate_sample_data is the number of
1-minute points of the inclusive range times the device count times 3; in
particular a 2-minute range with one device yields 9 records. -/
theorem generate_record_count :
    (∀ (s e : ℤ) (n : ℕ) (draws : ℤ → ℕ → Draws), s ≤ e → 0 < n →
      (generate_sample_data s e n draws).length = ((e - s).toNat / 60 + 1) * n * 3) ∧
    (∀ (s : ℤ) (draws : ℤ → ℕ → Draws),
      (generate_sample_data s (s + 120) 1 draws).length = 9) := by
  have hmain : ∀ (s e : ℤ) (n : ℕ) (draws : ℤ → ℕ → Draws), s ≤ e →
      (generate_sample_data s e n draws).length = ((e - s).toNat / 60 + 1) * n * 3 := by
    intro s e n draws h
    rw [generate_length s e n draws h]
    ring
  refine ⟨fun s e n draws h _ => hmain s e n draws h, fun s draws => ?_⟩
  rw [hmain s (s + 120) 1 draws (by linarith)]
  have h120 : (s + 120 - s).toNat = 120 := by omega
  rw [h120]

theorem generate_record_count_witness :
    (generate_sample_data 0 120 1 cDraws).length = 9 := by
  have h := generate_record_count.1 0 120 1 cDraws (by norm_num) (by norm_num)
  simpa using h

/-- Claim C5: in every generated record, humidity values lie in [0, 100]
and temperature values are nonnegative, for every range, device count and
random draw; the pressure record of each (timestamp, device) pair carries
the rounded pressure sample unclamped. -/
theorem generate_clamping :
    (∀ (draws : ℤ → ℕ → Draws) (s e : ℤ) (n : ℕ) (r : Record),
        r ∈ generate_sample_data s e n draws →
          (r.metric_name = "humidity" → 0 ≤ r.metric_value ∧ r.metric_value ≤ 100) ∧
          (r.metric_name = "temperature" → 0 ≤ r.metric_value)) ∧
    (∀ (dr : Draws) (t : ℤ) (d : ℕ),
        ((deviceRecords dr t d).filter (fun r => r.metric_name == "pressure")).map
            Record.metric_value = [round2 dr.press]) := by
  constructor
  · intro draws s e n r hr
    obtain ⟨t, d, hmem⟩ := mem_generate hr
    rcases mem_deviceRecords hmem with h | h | h <;> subst h <;> dsimp only
    · refine ⟨fun hn => absurd hn (by decide), fun _ => le_max_left 0 _⟩
    · refine ⟨fun _ => ⟨le_max_left 0 _, max_le (by norm_num) (min_le_left _ _)⟩,
        fun hn => absurd hn (by decide)⟩
    · refine ⟨fun hn => absurd hn (by decide), fun hn => absurd hn (by decide)⟩
  · intro dr t d
    rfl

theorem generate_clamping_witness :
    0 ≤ Record.metric_value
        { timestamp := 0, device_id := "device_001", metric_name := "humidity",
          metric_value := max 0 (min 100 (round2 50)), location := "zone_a",
          zone := "production" } ∧
      Record.metric_value
        { timestamp := 0, device_id := "device_001", metric_name := "humidity",
          metric_value := max 0 (min 100 (round2 50)), location := "zone_a",
          zone := "production" } ≤ 100 := by
  exact (generate_clamping.1 cDraws 0 0 1 _
    (List.mem_cons_of_mem _ (List.mem_cons_self _ _))).1 rfl

end CreateTestData

namespace CreateTestData

lemma listContains_iff (l pat : List Char) :
    listContains l pat = true ↔ ∃ i, pat <+: l.drop i := by
  rw [listContains, List.any_eq_true]
  constructor
  · rintro ⟨i, _, h⟩
    exact ⟨i, List.isPrefixOf_iff_prefix.1 h⟩
  · rintro ⟨i, h⟩
    by_cases hi : i ≤ l.length
    · exact ⟨i, List.mem_range.2 (by omega), List.isPrefixOf_iff_prefix.2 h⟩
    · rw [List.drop_eq_nil_of_le (by omega)] at h
      have hp : pat = [] := List.prefix_nil.1 h
      subst hp
      exact ⟨0, List.mem_range.2 (by omega),
        List.isPrefixOf_iff_prefix.2 (List.nil_prefix)⟩

lemma listContains_append_right {s pat : List Char} (p : List Char)
    (h : listContains s pat = true) : listContains (p ++ s) pat = true := by
  rw [listContains_iff] at h ⊢
  obtain ⟨i, h⟩ := h
  refine ⟨p.length + i, ?_⟩
  rw [List.drop_append_eq_append_drop, List.drop_eq_nil_of_le (by omega),
    List.nil_append, Nat.add_sub_cancel_left]
  exact h

lemma prefix_append_left {l x y : List Char} (h : l <+: x ++ y) (hl : l.length ≤ x.length) :
    l <+: x := by
  rw [List.prefix_iff_eq_take] at h ⊢
  rw [List.take_append_eq_append_take, Nat.sub_eq_zero_of_le hl, List.take_zero,
    List.append_nil] at h
  exact h

lemma listContains_of_prefix {q s pat : List Char} (hq : q <+: s)
    (h : listContains q pat = true) : listContains s pat = true := by
  rw [listContains_iff] at h ⊢
  obtain ⟨i, h⟩ := h
  obtain ⟨r, rfl⟩ := hq
  by_cases hi : i ≤ q.length
  · refine ⟨i, ?_⟩
    rw [List.drop_append_eq_append_drop, Nat.sub_eq_zero_of_le hi, List.drop_zero]
    exact h.trans (List.prefix_append _ _)
  · rw [List.drop_eq_nil_of_le (by omega)] at h
    have hp : pat = [] := List.prefix_nil.1 h
    subst hp
    exact ⟨0, List.nil_prefix⟩

lemma listContains_append_mid {a b pat : List Char} {c : Char}
    (hc : c ∉ pat)
    (ha : listContains a pat = false) (hb : listContains b pat = false) :
    listContains (a ++ c :: b) pat = false := by
  by_contra hcon
  rw [Bool.not_eq_false, listContains_iff] at hcon
  obtain ⟨i, h⟩ := hcon
  by_cases hi1 : i + pat.length ≤ a.length
  · have hd : (a ++ c :: b).drop i = a.drop i ++ c :: b := by
      rw [List.drop_append_eq_append_drop, Nat.sub_eq_zero_of_le (by omega), List.drop_zero]
    rw [hd] at h
    have hpre : pat <+: a.drop i :=
      prefix_append_left h (by rw [List.length_drop]; omega)
    have : listContains a pat = true := by
      rw [listContains_iff]; exact ⟨i, hpre⟩
    rw [ha] at this
    exact Bool.false_ne_true this
  · by_cases hi2 : i ≤ a.length
    · -- the occurrence covers the middle character c
      have hd : (a ++ c :: b).drop i = a.drop i ++ c :: b := by
        rw [List.drop_append_eq_append_drop, Nat.sub_eq_zero_of_le (by omega), List.drop_zero]
      rw [hd] at h
      obtain ⟨t, ht⟩ := h
      rcases List.append_eq_append_iff.1 ht.symm with ⟨w, hw1, hw2⟩ | ⟨w, hw1, hw2⟩
      · cases w with
        | nil =>
          have hl := congrArg List.length hw1
          rw [List.length_append, List.length_drop, List.length_nil] at hl
          omega
        | cons wh wt =>
          have hwh : wh = c := by
            have h2 := hw2
            rw [List.cons_append] at h2
            injection h2 with h3 h4
            exact h3.symm
          have : c ∈ pat := by
            rw [hw1, hwh]
            exact List.mem_append_right _ (List.mem_cons_self _ _)
          exact hc this
      · have hl := congrArg List.length hw1
        rw [List.length_drop, List.length_append] at hl
        omega
    · -- the occurrence lies inside b
      obtain ⟨k, hk⟩ : ∃ k, i - a.length = k + 1 := ⟨i - a.length - 1, by omega⟩
      have hd : (a ++ c :: b).drop i = b.drop k := by
        rw [List.drop_append_eq_append_drop, List.drop_eq_nil_of_le (by omega),
          List.nil_append, hk, List.drop_succ_cons]
      rw [hd] at h
      have : listContains b pat = true := by
        rw [listContains_iff]; exact ⟨k, h⟩
      rw [hb] at this
      exact Bool.false_ne_true this

end CreateTestData

namespace CreateTestData

lemma normPfx_decomp (p : String) :
    ∃ q : List Char, (normPfx p).data = q ++ ['/'] ∧ q <+: p.data := by
  by_cases h : endsSlash p = true
  · rw [normPfx, if_pos h]
    rw [endsSlash, decide_eq_true_eq] at h
    obtain ⟨q, hq⟩ := List.getLast?_eq_some_iff.1 h
    exact ⟨q, hq, by rw [hq]; exact ⟨['/'], rfl⟩⟩
  · rw [normPfx, if_neg h]
    refine ⟨p.data, ?_, List.prefix_refl _⟩
    rfl

lemma strContains_append_right' (p s pat : String) (h : strContains s pat = true) :
    strContains (p ++ s) pat = true := by
  rw [strContains] at h ⊢
  have hd : (p ++ s).data = p.data ++ s.data := rfl
  rw [hd]
  exact listContains_append_right _ h

lemma strContains_norm_append_false {p : String} (s pat : String)
    (hp : strContains p pat = false)
    (hc : '/' ∉ pat.data)
    (hs : strContains s pat = false) :
    strContains (normPfx p ++ s) pat = false := by
  obtain ⟨q, hq, hpre⟩ := normPfx_decomp p
  rw [strContains]
  have hdata : (normPfx p ++ s).data = q ++ '/' :: s.data := by
    have h1 : (normPfx p ++ s).data = (normPfx p).data ++ s.data := rfl
    rw [h1, hq, List.append_assoc, List.singleton_append]
  rw [hdata]
  have hq' : listContains q pat.data = false := by
    by_contra hx
    rw [Bool.not_eq_false] at hx
    have h2 := listContains_of_prefix hpre hx
    rw [strContains] at hp
    rw [hp] at h2
    exact Bool.false_ne_true h2
  exact listContains_append_mid hc hq' hs

/-- Claim C1, amended: for every S3 prefix that contains neither daily nor
hourly as a substring, the main routine uploads exactly three artifacts:
the full 7-day 5-device dataset under prefix+sample-metrics.csv, the 1-day
3-device dataset under prefix+daily-metrics-2024-01-15.csv, and the 1-hour
2-device dataset under prefix+hourly-metrics-2024-01-15.csv, in that
order. -/
theorem mainUploads_of_benign_pfx
    (put : String → String → List Record → Except String Unit)
    (pfx bucket : String) (endT : ℤ) (dF dD dH : ℤ → ℕ → Draws)
    (hd : strContains pfx "daily" = false) (hh : strContains pfx "hourly" = false) :
    mainUploads put pfx bucket endT dF dD dH =
      [(normPfx pfx ++ "sample-metrics.csv",
        generate_sample_data (endT - 604800) endT 5 dF,
        upload_to_s3 put (generate_sample_data (endT - 604800) endT 5 dF) bucket
          (normPfx pfx ++ "sample-metrics.csv")),
       (normPfx pfx ++ "daily-metrics-2024-01-15.csv",
        generate_sample_data (endT - 86400) endT 3 dD,
        upload_to_s3 put (generate_sample_data (endT - 86400) endT 3 dD) bucket
          (normPfx pfx ++ "daily-metrics-2024-01-15.csv")),
       (normPfx pfx ++ "hourly-metrics-2024-01-15.csv",
        generate_sample_data (endT - 3600) endT 2 dH,
        upload_to_s3 put (generate_sample_data (endT - 3600) endT 2 dH) bucket
          (normPfx pfx ++ "hourly-metrics-2024-01-15.csv"))] := by
  have k1d : strContains (normPfx pfx ++ "sample-metrics.csv") "daily" = false :=
    strContains_norm_append_false _ _ hd (by decide) (by decide)
  have k1h : strContains (normPfx pfx ++ "sample-metrics.csv") "hourly" = false :=
    strContains_norm_append_false _ _ hh (by decide) (by decide)
  have k2d : strContains (normPfx pfx ++ "daily-metrics-2024-01-15.csv") "daily" = true :=
    strContains_append_right' _ _ _ (by decide)
  have k3d : strContains (normPfx pfx ++ "hourly-metrics-2024-01-15.csv") "daily" = false :=
    strContains_norm_append_false _ _ hd (by decide) (by decide)
  have k3h : strContains (normPfx pfx ++ "hourly-metrics-2024-01-15.csv") "hourly" = true :=
    strContains_append_right' _ _ _ (by decide)
  simp only [mainUploads, testKeys, List.map_cons, List.map_nil, k1d, k1h, k2d, k3d, k3h,
    Bool.false_eq_true, if_false, if_true]

set_option maxRecDepth 8192 in
theorem mainUploads_of_benign_pfx_witness :
    mainUploads okPut "data/" "bucket" 0 cDraws cDraws cDraws =
      [("data/sample-metrics.csv", generate_sample_data (0 - 604800) 0 5 cDraws, true),
       ("data/daily-metrics-2024-01-15.csv", generate_sample_data (0 - 86400) 0 3 cDraws, true),
       ("data/hourly-metrics-2024-01-15.csv", generate_sample_data (0 - 3600) 0 2 cDraws, true)] := by
  rw [mainUploads_of_benign_pfx okPut "data/" "bucket" 0 cDraws cDraws cDraws
    (by decide) (by decide)]
  rfl

set_option maxRecDepth 8192 in
/-- Claim C1 is false on the code as stated for every prefix: with
S3_PREFIX set to daily/, the first key contains the substring daily, so
the dispatch in the upload loop sends the 1-day 3-device dataset to
prefix+sample-metrics.csv instead of the full dataset (their record counts
differ: 12969 versus 151215). -/
theorem mainUploads_daily_pfx_counterexample :
    (mainUploads okPut "daily/" "bucket" 0 cDraws cDraws cDraws).head? =
      some ("daily/sample-metrics.csv", generate_sample_data (0 - 86400) 0 3 cDraws, true) ∧
    generate_sample_data (0 - 86400) 0 3 cDraws ≠
      generate_sample_data (0 - 604800) 0 5 cDraws := by
  refine ⟨rfl, fun h => ?_⟩
  have h1 := generate_length (0 - 86400) 0 3 cDraws (by norm_num)
  rw [h, generate_length (0 - 604800) 0 5 cDraws (by norm_num)] at h1
  omega

/-- Claim C6: upload_to_s3 returns true exactly when the storage call
succeeds and false when it raises (the exception is caught inside), and
the main routine attempts all three uploads regardless of the individual
outcomes: the key list is always the three test keys, and each per-file
flag equals the outcome of that file's own storage call only. -/
theorem upload_failures_isolated :
    (∀ (put : String → String → List Record → Except String Unit) (df : List Record)
        (bucket key : String),
      upload_to_s3 put df bucket key = exceptOk (put bucket key df)) ∧
    (∀ (put : String → String → List Record → Except String Unit)
        (pfx bucket : String) (endT : ℤ) (dF dD dH : ℤ → ℕ → Draws),
      ((mainUploads put pfx bucket endT dF dD dH).map Prod.fst = testKeys (normPfx pfx)) ∧
      List.Forall (fun x => x.2.2 = exceptOk (put bucket x.1 x.2.1))
        (mainUploads put pfx bucket endT dF dD dH)) := by
  have hup : ∀ (put : String → String → List Record → Except String Unit) (df : List Record)
      (bucket key : String), upload_to_s3 put df bucket key = exceptOk (put bucket key df) := by
    intro put df bucket key
    rw [upload_to_s3]
    cases put bucket key df <;> rfl
  refine ⟨hup, fun put pfx bucket endT dF dD dH => ⟨?_, ?_⟩⟩
  · simp only [mainUploads, testKeys, List.map_cons, List.map_nil]
  · simp only [mainUploads, testKeys, List.map_cons, List.map_nil, List.Forall, hup, and_true]

end CreateTestData

namespace EncodeSecrets

lemma b64chars_not_ws : ∀ c ∈ b64chars, isWS c = false := by decide

lemma isWS_sextetChar (n : ℕ) : isWS (sextetChar n) = false := by
  rw [sextetChar]
  by_cases h : n < b64chars.length
  · rw [List.getD_eq_getElem b64chars 'A' h]
    exact b64chars_not_ws _ (List.getElem_mem h)
  · rw [List.getD_eq_default b64chars 'A' (by omega)]
    decide

lemma b64encode_not_ws (bs : List Nat) : ∀ c ∈ b64encodeBytes bs, isWS c = false := by
  induction bs using b64encodeBytes.induct with
  | case1 => intro c hc; simp [b64encodeBytes] at hc
  | case2 a =>
    intro c hc
    simp only [b64encodeBytes, List.mem_cons, List.not_mem_nil, or_false] at hc
    rcases hc with rfl | rfl | rfl | rfl
    · exact isWS_sextetChar _
    · exact isWS_sextetChar _
    · decide
    · decide
  | case3 a b =>
    intro c hc
    simp only [b64encodeBytes, List.mem_cons, List.not_mem_nil, or_false] at hc
    rcases hc with rfl | rfl | rfl | rfl
    · exact isWS_sextetChar _
    · exact isWS_sextetChar _
    · exact isWS_sextetChar _
    · decide
  | case4 a b c2 rest ih =>
    intro c hc
    simp only [b64encodeBytes, List.mem_cons] at hc
    rcases hc with rfl | rfl | rfl | rfl | hc
    · exact isWS_sextetChar _
    · exact isWS_sextetChar _
    · exact isWS_sextetChar _
    · exact isWS_sextetChar _
    · exact ih c hc

lemma dropWhile_of_all_false {p : Char → Bool} {l : List Char}
    (h : ∀ c ∈ l, p c = false) : l.dropWhile p = l := by
  cases l with
  | nil => rfl
  | cons c cs => rw [List.dropWhile_cons, h c (by simp)]; simp

lemma pyStrip_id {l : List Char} (h : ∀ c ∈ l, isWS c = false) : pyStrip l = l := by
  rw [pyStrip, dropWhile_of_all_false h,
    dropWhile_of_all_false (fun c hc => h c (List.mem_reverse.1 hc)), List.reverse_reverse]

lemma splitEq_append {a b : List Char} (ha : ∀ c ∈ a, c ≠ '=') :
    splitEq (a ++ '=' :: b) = some (a, b) := by
  induction a with
  | nil => simp [splitEq]
  | cons c a ih =>
    rw [List.cons_append, splitEq, if_neg (ha c (by simp)),
      ih (fun x hx => ha x (by simp [hx]))]
    rfl

lemma mk_data (s : String) : String.mk s.data = s := rfl

lemma targets_chars : ∀ k ∈ targets,
    (∀ c ∈ k.data, isWS c = false) ∧ (∀ c ∈ k.data, c ≠ '=') ∧
    k.data ≠ [] ∧ k.data.head? ≠ some '#' := by decide

lemma targets_B64_ne : ∀ k ∈ targets, ∀ t ∈ targets, k ++ "_B64" ≠ t := by decide

end EncodeSecrets

namespace EncodeSecrets

lemma parseLine_appendedLine (k v : String) (hk : k ∈ targets) :
    parseLine (appendedLine k (encode_secret v)) =
      some (k ++ "_B64",
        String.mk (Char.ofNat 39 :: ((encode_secret v).data ++ [Char.ofNat 39]))) := by
  obtain ⟨hws, heq, hne, hhd⟩ := targets_chars k hk
  have hech : ∀ c ∈ (encode_secret v).data, isWS c = false := fun c hc =>
    b64encode_not_ws (utf8Encode v.data) c hc
  have hsq : sq.data = [Char.ofNat 39] := rfl
  have hdata : (appendedLine k (encode_secret v)).data =
      k.data ++ '_' :: 'B' :: '6' :: '4' :: '=' :: Char.ofNat 39 ::
        ((encode_secret v).data ++ [Char.ofNat 39]) := by
    simp only [appendedLine, String.data_append, hsq, List.append_assoc]
    rfl
  have hall : ∀ c ∈ (appendedLine k (encode_secret v)).data, isWS c = false := by
    rw [hdata]
    intro c hc
    rcases List.mem_append.1 hc with hc | hc
    · exact hws c hc
    · simp only [List.mem_cons] at hc
      rcases hc with rfl | rfl | rfl | rfl | rfl | rfl | hc
      · decide
      · decide
      · decide
      · decide
      · decide
      · decide
      · rcases List.mem_append.1 hc with hc | hc
        · exact hech c hc
        · simp only [List.mem_singleton] at hc
          subst hc
          decide
  obtain ⟨c0, cs, hcons⟩ := List.exists_cons_of_ne_nil hne
  have hc0 : c0 ≠ '#' := by
    intro h
    rw [hcons, h] at hhd
    exact hhd rfl
  rw [parseLine, pyStrip_id hall, hdata, hcons, List.cons_append]
  rw [if_neg (by simp), if_neg (by simp [hc0])]
  have hsplit : splitEq (c0 :: (cs ++ '_' :: 'B' :: '6' :: '4' :: '=' :: Char.ofNat 39 ::
      ((encode_secret v).data ++ [Char.ofNat 39]))) =
      some (c0 :: (cs ++ ['_', 'B', '6', '4']),
        Char.ofNat 39 :: ((encode_secret v).data ++ [Char.ofNat 39])) := by
    have hk2 : ∀ c ∈ c0 :: cs, c ≠ '=' := by
      rw [← hcons]
      exact heq
    have ha : ∀ c ∈ c0 :: (cs ++ ['_', 'B', '6', '4']), c ≠ '=' := by
      intro c hc
      simp only [List.mem_cons, List.mem_append] at hc
      rcases hc with hc | hc | hc
      · exact hc ▸ hk2 _ (List.mem_cons_self _ _)
      · exact hk2 _ (List.mem_cons_of_mem _ hc)
      · simp only [List.mem_cons, List.not_mem_nil, or_false] at hc
        rcases hc with rfl | rfl | rfl | rfl <;> decide
    have hre : c0 :: (cs ++ '_' :: 'B' :: '6' :: '4' :: '=' :: Char.ofNat 39 ::
        ((encode_secret v).data ++ [Char.ofNat 39])) =
        (c0 :: (cs ++ ['_', 'B', '6', '4'])) ++ '=' :: Char.ofNat 39 ::
          ((encode_secret v).data ++ [Char.ofNat 39]) := by
      simp
    rw [hre]
    exact splitEq_append ha
  rw [hsplit]
  dsimp only []
  have hmk : String.mk (c0 :: (cs ++ ['_', 'B', '6', '4'])) = k ++ "_B64" := by
    have : c0 :: (cs ++ ['_', 'B', '6', '4']) = (k ++ "_B64").data := by
      show _ = k.data ++ "_B64".data
      rw [hcons]
      simp
    rw [this, mk_data]
  rw [hmk]

end EncodeSecrets

namespace EncodeSecrets

lemma lookup_map_upd (m : List (String × String)) (k' v t : String) (h : k' ≠ t) :
    (m.map (fun p => if p.1 == k' then (k', v) else p)).lookup t = m.lookup t := by
  have ht' : ∀ a : String, a = k' → (t == a) = false := by
    intro a ha
    subst ha
    exact beq_eq_false_iff_ne.2 (fun he => h (he.symm))
  induction m with
  | nil => rfl
  | cons p m ih =>
    rcases p with ⟨a, b⟩
    rw [List.map_cons]
    by_cases hp : a = k'
    · rw [if_pos (by simp [hp]), List.lookup_cons, List.lookup_cons,
        ht' k' rfl, ht' a hp]
      exact ih
    · rw [if_neg (by simp [hp]), List.lookup_cons, List.lookup_cons]
      cases hta : (t == a) with
      | true => rfl
      | false => exact ih

lemma lookup_append_single (m : List (String × String)) (k' v t : String) (h : k' ≠ t) :
    (m ++ [(k', v)]).lookup t = m.lookup t := by
  induction m with
  | nil =>
    have ht : (t == k') = false := by simp; exact fun he => h he.symm
    simp [List.lookup, ht]
  | cons p m ih =>
    rcases p with ⟨a, b⟩
    simp only [List.cons_append, List.lookup]
    cases hta : (t == a) <;> simp [ih]

lemma lookup_upsert_ne (m : List (String × String)) (k' v t : String) (h : k' ≠ t) :
    (upsert m k' v).lookup t = m.lookup t := by
  rw [upsert]
  by_cases hany : m.any (fun p => p.1 == k') = true
  · rw [if_pos hany]
    exact lookup_map_upd m k' v t h
  · rw [if_neg hany]
    exact lookup_append_single m k' v t h

lemma upsert_ne_nil (m : List (String × String)) (k' v : String) (hm : m ≠ []) :
    upsert m k' v ≠ [] := by
  rw [upsert]
  by_cases hany : m.any (fun p => p.1 == k') = true
  · rw [if_pos hany]
    simpa using hm
  · rw [if_neg hany]
    simp

lemma foldl_lookup_preserved (X : List String) :
    ∀ (m : List (String × String)),
      (∀ line ∈ X, ∀ kv, parseLine line = some kv → ∀ t ∈ targets, kv.1 ≠ t) →
      ∀ t ∈ targets,
        (X.foldl (fun m line =>
          match parseLine line with
          | some kv => upsert m kv.1 kv.2
          | none => m) m).lookup t = m.lookup t := by
  induction X with
  | nil => intro m _ t _; rfl
  | cons line X ih =>
    intro m hX t ht
    rw [List.foldl_cons]
    cases hp : parseLine line with
    | none =>
      simp only [hp]
      exact ih m (fun l hl => hX l (by simp [hl])) t ht
    | some kv =>
      simp only [hp]
      rw [ih _ (fun l hl => hX l (by simp [hl])) t ht]
      exact lookup_upsert_ne m kv.1 kv.2 t (hX line (by simp) kv hp t ht)

lemma foldl_ne_nil (X : List String) :
    ∀ (m : List (String × String)), m ≠ [] →
      X.foldl (fun m line =>
        match parseLine line with
        | some kv => upsert m kv.1 kv.2
        | none => m) m ≠ [] := by
  induction X with
  | nil => intro m hm; exact hm
  | cons line X ih =>
    intro m hm
    rw [List.foldl_cons]
    cases hp : parseLine line with
    | none => simp only [hp]; exact ih m hm
    | some kv => simp only [hp]; exact ih _ (upsert_ne_nil m kv.1 kv.2 hm)

lemma loadEnv_append (l1 l2 : List String) :
    loadEnv (l1 ++ l2) = l2.foldl
      (fun m line =>
        match parseLine line with
        | some kv => upsert m kv.1 kv.2
        | none => m) (loadEnv l1) := by
  rw [loadEnv, List.foldl_append, loadEnv]

end EncodeSecrets

namespace EncodeSecrets

lemma processKeys_fst (m : List (String × String)) :
    ∀ ks : List String, (processKeys m ks).1 =
      ks.filterMap (fun k => (m.lookup k).map (fun v => appendedLine k (encode_secret v))) := by
  intro ks
  induction ks with
  | nil => rfl
  | cons k ks ih =>
    rw [processKeys, List.filterMap_cons]
    cases h : m.lookup k with
    | none => simp only [h, Option.map_none']; exact ih
    | some v => simp only [h, Option.map_some']; rw [← ih]

lemma processKeys_snd (m : List (String × String)) :
    ∀ ks : List String, (processKeys m ks).2 =
      ks.map (fun k =>
        match m.lookup k with
        | some v => k ++ "_B64=" ++ encode_secret v
        | none => k ++ " not found in .env file") := by
  intro ks
  induction ks with
  | nil => rfl
  | cons k ks ih =>
    rw [processKeys, List.map_cons]
    cases h : m.lookup k with
    | none => simp only [h]; rw [← ih]
    | some v => simp only [h]; rw [← ih]

lemma encoderMain_some (lines : List String) (h : loadEnv lines ≠ []) :
    encoderMain (some lines) =
      (some (lines ++ appendedFor (loadEnv lines)), reportsFor (loadEnv lines)) := by
  rw [encoderMain, if_neg h, appendedFor, reportsFor, ← processKeys_fst, ← processKeys_snd]

lemma appendedFor_keys (m : List (String × String)) :
    ∀ line ∈ appendedFor m, ∀ kv, parseLine line = some kv → ∀ t ∈ targets, kv.1 ≠ t := by
  intro line hline kv hkv t ht
  rw [appendedFor] at hline
  obtain ⟨k, hk, hmap⟩ := List.mem_filterMap.1 hline
  obtain ⟨v, hv, hlv⟩ : ∃ v, m.lookup k = some v ∧ appendedLine k (encode_secret v) = line := by
    cases hlu : m.lookup k with
    | none => rw [hlu] at hmap; simp at hmap
    | some v =>
      rw [hlu] at hmap
      simp only [Option.map_some', Option.some.injEq] at hmap
      exact ⟨v, rfl, hmap⟩
  rw [← hlv, parseLine_appendedLine k v hk] at hkv
  have hkv1 : kv.1 = k ++ "_B64" := by
    cases hkv0 : kv with
    | mk a b =>
      rw [hkv0] at hkv
      simp only [Option.some.injEq, Prod.mk.injEq] at hkv
      exact hkv.1.symm
  rw [hkv1]
  exact targets_B64_ne k hk t ht

lemma filterMap_congr_mem {α β : Type} {l : List α} {f g : α → Option β}
    (h : ∀ a ∈ l, f a = g a) : l.filterMap f = l.filterMap g := by
  induction l with
  | nil => rfl
  | cons a l ih =>
    rw [List.filterMap_cons, List.filterMap_cons, h a (by simp),
      ih (fun x hx => h x (by simp [hx]))]

lemma appendedFor_congr {m1 m2 : List (String × String)}
    (h : ∀ t ∈ targets, m2.lookup t = m1.lookup t) : appendedFor m2 = appendedFor m1 := by
  rw [appendedFor, appendedFor]
  exact filterMap_congr_mem (fun k hk => by rw [h k hk])

lemma appendedFor_nil : appendedFor [] = [] := rfl

lemma length_filterMap_isSome {α β : Type} (l : List α) (f : α → Option β) :
    (l.filterMap f).length = (l.filter (fun a => (f a).isSome)).length := by
  induction l with
  | nil => rfl
  | cons a l ih =>
    rw [List.filterMap_cons, List.filter_cons]
    cases h : f a with
    | none => simp only [h, Option.isSome_none, Bool.false_eq_true, if_false]; exact ih
    | some b =>
      simp only [h, Option.isSome_some, if_true, List.length_cons, ih]

end EncodeSecrets

namespace EncodeSecrets

/-- Claim C7: running the encoder twice on the same configuration file
appends the same block of KEY_B64 lines twice — one line per target key
present in the original parsed mapping, with no deduplication — so the
file grows by one line per present target key on every run. -/
theorem encoder_second_run (lines : List String) :
    (encoderMain ((encoderMain (some lines)).1)).1 =
      some (lines ++ appendedFor (loadEnv lines) ++ appendedFor (loadEnv lines)) ∧
    (appendedFor (loadEnv lines)).length =
      (targets.filter (fun k => ((loadEnv lines).lookup k).isSome)).length := by
  constructor
  · by_cases hm : loadEnv lines = []
    · rw [hm, appendedFor_nil, encoderMain, if_pos hm]
      dsimp only []
      rw [encoderMain, if_pos hm]
      simp
    · rw [encoderMain_some lines hm]
      dsimp only []
      have hkeys := appendedFor_keys (loadEnv lines)
      have hpres : ∀ t ∈ targets,
          (loadEnv (lines ++ appendedFor (loadEnv lines))).lookup t =
            (loadEnv lines).lookup t := by
        rw [loadEnv_append]
        exact foldl_lookup_preserved _ _ hkeys
      have hm2 : loadEnv (lines ++ appendedFor (loadEnv lines)) ≠ [] := by
        rw [loadEnv_append]
        exact foldl_ne_nil _ _ hm
      rw [encoderMain_some _ hm2]
      dsimp only []
      rw [appendedFor_congr hpres, List.append_assoc]
  · rw [appendedFor, length_filterMap_isSome]
    congr 1
    apply List.filter_congr
    intro k _
    simp [Option.isSome_map]

/-- Claim C3: when a target key k maps to value v in the parsed
configuration file, the encoder appends the line k_B64=(quoted encoded
value), and decoding that encoded value with a standard base64 decode
followed by UTF-8 decoding reproduces v exactly, for every string v. -/
theorem encode_secret_roundtrip_in_env (lines : List String) (k v : String)
    (hk : k ∈ targets) (hv : (loadEnv lines).lookup k = some v) :
    appendedLine k (encode_secret v) ∈ appendedFor (loadEnv lines) ∧
    (encoderMain (some lines)).1 = some (lines ++ appendedFor (loadEnv lines)) ∧
    decodeSecret (encode_secret v) = some v := by
  have hm : loadEnv lines ≠ [] := by
    intro h
    rw [h] at hv
    simp at hv
  refine ⟨?_, by rw [encoderMain_some lines hm], decode_encode_secret v⟩
  rw [appendedFor]
  exact List.mem_filterMap.2 ⟨k, hk, by rw [hv]; rfl⟩

theorem encode_secret_roundtrip_in_env_witness :
    appendedLine "ES_USER" (encode_secret "alice") ∈ appendedFor (loadEnv ["ES_USER=alice"]) ∧
    (encoderMain (some ["ES_USER=alice"])).1 =
      some (["ES_USER=alice"] ++ appendedFor (loadEnv ["ES_USER=alice"])) ∧
    decodeSecret (encode_secret "alice") = some "alice" :=
  encode_secret_roundtrip_in_env ["ES_USER=alice"] "ES_USER" "alice" (by decide) (by decide)

/-- Claim C8: when the configuration file does not exist the encoder
reports this and exits: the printed output is exactly the missing-file
message, no per-key processing happens and no file state changes. -/
theorem missing_env_file_reported :
    encoderMain none = (none, ["File .env not found!"]) ∧ load_env_file none = none :=
  ⟨rfl, rfl⟩

/-- Claim C9 is false on the code as stated: a configuration file whose
parsed mapping is empty (here a single comment line) triggers the early
exit, so although every target key is absent from the mapping, no
"not found" report is printed at all. -/
theorem encoder_empty_mapping_counterexample :
    loadEnv ["# AWS_ACCESS_KEY_ID=x"] = [] ∧
    encoderMain (some ["# AWS_ACCESS_KEY_ID=x"]) = (some ["# AWS_ACCESS_KEY_ID=x"], []) ∧
    (encoderMain (some ["# AWS_ACCESS_KEY_ID=x"])).2 ≠
      reportsFor (loadEnv ["# AWS_ACCESS_KEY_ID=x"]) :=
  ⟨by decide, by decide, by decide⟩

/-- Claim C9, amended: provided the parsed mapping is nonempty, a run of
the encoder appends exactly the KEY_B64 lines of the present target keys
(everything else unchanged, keys outside the seven never encoded or
appended) and prints, per target key in order, either the encoded value or
a "not found" report. -/
theorem encoder_frame (lines : List String) (h : loadEnv lines ≠ []) :
    encoderMain (some lines) =
      (some (lines ++ appendedFor (loadEnv lines)), reportsFor (loadEnv lines)) :=
  encoderMain_some lines h

theorem encoder_frame_witness :
    encoderMain (some ["ES_USER=alice", "OTHER=zz"]) =
      (some (["ES_USER=alice", "OTHER=zz"] ++
        appendedFor (loadEnv ["ES_USER=alice", "OTHER=zz"])),
       reportsFor (loadEnv ["ES_USER=alice", "OTHER=zz"])) :=
  encoder_frame ["ES_USER=alice", "OTHER=zz"] (by decide)

/-- Claim C10: when the configuration file exists but parses to an empty
mapping, the encoder exits early: it prints nothing (in particular none of
the per-key "not found" reports) and leaves the file unchanged. -/
theorem encoder_empty_mapping_early_exit (lines : List String) (h : loadEnv lines = []) :
    encoderMain (some lines) = (some lines, []) := by
  rw [encoderMain, if_pos h]

theorem encoder_empty_mapping_early_exit_witness :
    encoderMain (some ["# comment", "", "novalue"]) =
      (some ["# comment", "", "novalue"], []) :=
  encoder_empty_mapping_early_exit ["# comment", "", "novalue"] (by decide)

end EncodeSecrets
